import Mathlib

/-!
Verification of the SynApps orchestrator core against its specification.

The definitions below are a shallow embedding of the Python modules of the
repository (apps/orchestrator-v0.5): the conditional-branching engine, the
circuit breaker and retry logic of the resilience manager, the priority
message bus, the message batcher, the nested-workflow engine and the base
workflow engine.  Python dictionaries are modelled as association lists,
Python exceptions as `Option` results (`none` means the call raised), and
in-place mutation of a message object as an explicit "object state after the
call" result.
-/

namespace SynApps

/-- Universe of Python values that can appear in a message's `context` or
`metadata` dictionary.  Equality is Python `==` (structural on this
universe; a Python bool is an `int` subclass, so `True` is `int 1`);
ordering is defined only between matching types, anything else raising
`TypeError`. -/
inductive PyVal where
  | int : Int → PyVal
  | str : String → PyVal
  | list : List PyVal → PyVal
  | dict : List (String × PyVal) → PyVal
  | none : PyVal
deriving Repr

mutual

/-- Decidable equality on `PyVal` (Python `==` is structural here). -/
def pyDecEq : (a b : PyVal) → Decidable (a = b)
  | PyVal.int a, PyVal.int b =>
    match decEq a b with
    | isTrue h => isTrue (congrArg PyVal.int h)
    | isFalse h => isFalse (fun hc => h (PyVal.int.inj hc))
  | PyVal.int _, PyVal.str _ => isFalse (fun hc => PyVal.noConfusion hc)
  | PyVal.int _, PyVal.list _ => isFalse (fun hc => PyVal.noConfusion hc)
  | PyVal.int _, PyVal.dict _ => isFalse (fun hc => PyVal.noConfusion hc)
  | PyVal.int _, PyVal.none => isFalse (fun hc => PyVal.noConfusion hc)
  | PyVal.str _, PyVal.int _ => isFalse (fun hc => PyVal.noConfusion hc)
  | PyVal.str a, PyVal.str b =>
    match decEq a b with
    | isTrue h => isTrue (congrArg PyVal.str h)
    | isFalse h => isFalse (fun hc => h (PyVal.str.inj hc))
  | PyVal.str _, PyVal.list _ => isFalse (fun hc => PyVal.noConfusion hc)
  | PyVal.str _, PyVal.dict _ => isFalse (fun hc => PyVal.noConfusion hc)
  | PyVal.str _, PyVal.none => isFalse (fun hc => PyVal.noConfusion hc)
  | PyVal.list _, PyVal.int _ => isFalse (fun hc => PyVal.noConfusion hc)
  | PyVal.list _, PyVal.str _ => isFalse (fun hc => PyVal.noConfusion hc)
  | PyVal.list a, PyVal.list b =>
    match pyDecEqList a b with
    | isTrue h => isTrue (congrArg PyVal.list h)
    | isFalse h => isFalse (fun hc => h (PyVal.list.inj hc))
  | PyVal.list _, PyVal.dict _ => isFalse (fun hc => PyVal.noConfusion hc)
  | PyVal.list _, PyVal.none => isFalse (fun hc => PyVal.noConfusion hc)
  | PyVal.dict _, PyVal.int _ => isFalse (fun hc => PyVal.noConfusion hc)
  | PyVal.dict _, PyVal.str _ => isFalse (fun hc => PyVal.noConfusion hc)
  | PyVal.dict _, PyVal.list _ => isFalse (fun hc => PyVal.noConfusion hc)
  | PyVal.dict a, PyVal.dict b =>
    match pyDecEqPairs a b with
    | isTrue h => isTrue (congrArg PyVal.dict h)
    | isFalse h => isFalse (fun hc => h (PyVal.dict.inj hc))
  | PyVal.dict _, PyVal.none => isFalse (fun hc => PyVal.noConfusion hc)
  | PyVal.none, PyVal.int _ => isFalse (fun hc => PyVal.noConfusion hc)
  | PyVal.none, PyVal.str _ => isFalse (fun hc => PyVal.noConfusion hc)
  | PyVal.none, PyVal.list _ => isFalse (fun hc => PyVal.noConfusion hc)
  | PyVal.none, PyVal.dict _ => isFalse (fun hc => PyVal.noConfusion hc)
  | PyVal.none, PyVal.none => isTrue rfl

/-- Decidable equality on lists of `PyVal`. -/
def pyDecEqList : (a b : List PyVal) → Decidable (a = b)
  | [], [] => isTrue rfl
  | [], _ :: _ => isFalse (fun hc => List.noConfusion hc)
  | _ :: _, [] => isFalse (fun hc => List.noConfusion hc)
  | x :: xs, y :: ys =>
    match pyDecEq x y, pyDecEqList xs ys with
    | isTrue h1, isTrue h2 => isTrue (by rw [h1, h2])
    | isFalse h1, _ => isFalse (fun hc => by injection hc with hh ht; exact h1 hh)
    | _, isFalse h2 => isFalse (fun hc => by injection hc with hh ht; exact h2 ht)

/-- Decidable equality on string-keyed association lists of `PyVal`. -/
def pyDecEqPairs : (a b : List (String × PyVal)) → Decidable (a = b)
  | [], [] => isTrue rfl
  | [], _ :: _ => isFalse (fun hc => List.noConfusion hc)
  | _ :: _, [] => isFalse (fun hc => List.noConfusion hc)
  | (k1, v1) :: xs, (k2, v2) :: ys =>
    match decEq k1 k2, pyDecEq v1 v2, pyDecEqPairs xs ys with
    | isTrue hk, isTrue hv, isTrue ht => isTrue (by rw [hk, hv, ht])
    | isFalse hk, _, _ =>
      isFalse (fun hc => by injection hc with hh ht; injection hh with hk2 hv2; exact hk hk2)
    | _, isFalse hv, _ =>
      isFalse (fun hc => by injection hc with hh ht; injection hh with hk2 hv2; exact hv hv2)
    | _, _, isFalse ht2 => isFalse (fun hc => by injection hc with hh ht; exact ht2 ht)

end

instance : DecidableEq PyVal := pyDecEq

/-- Python `a < b` on this universe: defined for int/int, str/str and
list/list (lexicographic, comparing elements with `==` first), raising
`TypeError` (`Option.none`) on any other combination. -/
def pyLt : PyVal → PyVal → Option Bool
  | PyVal.int a, PyVal.int b => some (decide (a < b))
  | PyVal.str a, PyVal.str b => some (decide (a < b))
  | PyVal.list a, PyVal.list b => pyLtList a b
  | _, _ => Option.none
where
  /-- Lexicographic `<` on Python lists. -/
  pyLtList : List PyVal → List PyVal → Option Bool
  | [], [] => some false
  | [], _ :: _ => some true
  | _ :: _, [] => some false
  | x :: xs, y :: ys => if x = y then pyLtList xs ys else pyLt x y

/-- Python `a <= b` on this universe (same domain as `pyLt`). -/
def pyLe : PyVal → PyVal → Option Bool
  | PyVal.int a, PyVal.int b => some (decide (a ≤ b))
  | PyVal.str a, PyVal.str b => some (decide (a ≤ b))
  | PyVal.list a, PyVal.list b => pyLeList a b
  | _, _ => Option.none
where
  /-- Lexicographic `<=` on Python lists. -/
  pyLeList : List PyVal → List PyVal → Option Bool
  | [], _ => some true
  | _ :: _, [] => some false
  | x :: xs, y :: ys => if x = y then pyLeList xs ys else pyLt x y

/-- Python `target in value` for a string `value` (substring test). -/
def strContains (s pat : String) : Bool :=
  decide (pat.toList <:+: s.toList)

/-- Python membership `target in value` as used by the `contains`
comparison: substring for two strings, element membership (via `==`) for a
list value, key membership for a dict value — but probing a dict with an
unhashable target (a list or a dict) raises `TypeError` (`Option.none`).
Any other combination falls through the source's `isinstance` guards to
`False`. -/
def pyContains (value target : PyVal) : Option Bool :=
  match value, target with
  | PyVal.str s, PyVal.str t => some (strContains s t)
  | PyVal.list l, t => some (l.contains t)
  | PyVal.dict _, PyVal.list _ => Option.none
  | PyVal.dict _, PyVal.dict _ => Option.none
  | PyVal.dict d, PyVal.str t => some (d.any (fun p => p.fst = t))
  | PyVal.dict _, _ => some false
  | _, _ => some false

/-- `ConditionalBranchingEngine._compare_values`: compare a stored value
with the condition's target under the configured comparison operator.
`Option.none` models a raised `TypeError` (possible for the four ordering
operators on incompatible types, and for `contains` on a dict value with
an unhashable target). -/
def compare_values (value target : PyVal) (comparison : Option String) : Option Bool :=
  if comparison = Option.none ∨ comparison = some "eq" then
    some (decide (value = target))
  else if comparison = some "neq" then
    some (decide (value ≠ target))
  else if comparison = some "gt" then
    pyLt target value
  else if comparison = some "gte" then
    pyLe target value
  else if comparison = some "lt" then
    pyLt value target
  else if comparison = some "lte" then
    pyLe value target
  else if comparison = some "contains" then
    pyContains value target
  else if comparison = some "startswith" then
    match value, target with
    | PyVal.str v, PyVal.str t => some (v.startsWith t)
    | _, _ => some false
  else if comparison = some "endswith" then
    match value, target with
    | PyVal.str v, PyVal.str t => some (v.endsWith t)
    | _, _ => some false
  else
    some false

/-- `AppletMessage`: content plus `context` and `metadata` dictionaries
(association lists keyed by strings). -/
structure AppletMessage where
  content : PyVal
  context : List (String × PyVal)
  metadata : List (String × PyVal)
deriving Repr, DecidableEq

/-- Dictionary lookup (`d[k]` / `k in d`). -/
def lookupKey (d : List (String × PyVal)) (k : String) : Option PyVal :=
  (d.find? (fun p => p.fst = k)).map (fun p => p.snd)

/-- Python `d[k] = v`: replace the binding if the key is present,
otherwise append it. -/
def insertKey (d : List (String × PyVal)) (k : String) (v : PyVal) : List (String × PyVal) :=
  if (d.find? (fun p => p.fst = k)).isSome then
    d.map (fun p => if p.fst = k then (k, v) else p)
  else
    d ++ [(k, v)]

/-- `ConditionType` of the conditional-branching engine. -/
inductive ConditionType where
  | content_match
  | metadata_check
  | context_check
  | custom
  | always
deriving Repr, DecidableEq

/-- `BranchCondition`.  `compiled_search` stands for the compiled regex's
`search` method (an abstract matcher); `custom_condition` for the
user-supplied predicate, returning `Option.none` when it raises. -/
structure BranchCondition where
  condition_type : ConditionType
  target_step_id : String
  content_pattern : Option String := Option.none
  pattern_is_regex : Bool := false
  case_sensitive : Bool := true
  compiled_search : Option (String → Bool) := Option.none
  metadata_key : Option String := Option.none
  metadata_value : PyVal := PyVal.none
  metadata_comparison : Option String := Option.none
  context_key : Option String := Option.none
  context_value : PyVal := PyVal.none
  context_comparison : Option String := Option.none
  custom_condition : Option (AppletMessage → Option Bool) := Option.none

/-- `ConditionalBranchingEngine.evaluate_condition`.  `Option.none` models
an uncaught exception escaping the call (the source catches exceptions only
inside the CUSTOM branch). -/
def evaluate_condition (c : BranchCondition) (m : AppletMessage) : Option Bool :=
  match c.condition_type with
  | ConditionType.always => some true
  | ConditionType.content_match =>
    match m.content with
    | PyVal.str content =>
      if c.pattern_is_regex ∧ c.compiled_search.isSome then
        match c.compiled_search with
        | some f => some (f content)
        | Option.none => some false
      else
        match c.content_pattern with
        | Option.none => Option.none
        | some pat =>
          if c.case_sensitive then
            some (strContains content pat)
          else
            some (strContains content.toLower pat.toLower)
    | _ => some false
  | ConditionType.metadata_check =>
    match c.metadata_key with
    | Option.none => some false
    | some k =>
      match lookupKey m.metadata k with
      | Option.none => some false
      | some v => compare_values v c.metadata_value c.metadata_comparison
  | ConditionType.context_check =>
    match c.context_key with
    | Option.none => some false
    | some k =>
      match lookupKey m.context k with
      | Option.none => some false
      | some v => compare_values v c.context_value c.context_comparison
  | ConditionType.custom =>
    match c.custom_condition with
    | Option.none => some false
    | some f =>
      match f m with
      | some b => some b
      | Option.none => some false

/-- States of a `CircuitBreaker` (`"closed"`, `"open"`, `"half-open"`). -/
inductive CBState where
  | closed
  | opened
  | halfOpen
deriving Repr, DecidableEq

/-- `CircuitBreaker` from `core/governance/resilience.py`.  Time is in
integer milliseconds. -/
structure CircuitBreaker where
  failure_threshold : Nat := 5
  reset_timeout_ms : Nat := 60000
  failure_count : Nat := 0
  last_failure_time : Option Nat := Option.none
  state : CBState := CBState.closed
deriving Repr, DecidableEq

/-- `CircuitBreaker.record_success`. -/
def record_success (cb : CircuitBreaker) : CircuitBreaker :=
  let cb1 := if cb.state = CBState.halfOpen then { cb with state := CBState.closed } else cb
  { cb1 with failure_count := 0 }

/-- `CircuitBreaker.record_failure` at time `now`. -/
def record_failure (cb : CircuitBreaker) (now : Nat) : CircuitBreaker :=
  let cb1 := { cb with failure_count := cb.failure_count + 1, last_failure_time := some now }
  if cb1.failure_count ≥ cb1.failure_threshold then { cb1 with state := CBState.opened } else cb1

/-- `CircuitBreaker.allow_request` at time `now`: returns the decision and
the breaker afterwards (the open state mutates to half-open once the reset
timeout has elapsed). -/
def allow_request (cb : CircuitBreaker) (now : Nat) : Bool × CircuitBreaker :=
  match cb.state with
  | CBState.closed => (true, cb)
  | CBState.opened =>
    match cb.last_failure_time with
    | some t =>
      if (now : Int) - (t : Int) ≥ (cb.reset_timeout_ms : Int) then
        (true, { cb with state := CBState.halfOpen })
      else
        (false, cb)
    | Option.none => (false, cb)
  | CBState.halfOpen => (true, cb)

/-- `RetryStrategy`. -/
inductive RetryStrategy where
  | immediate
  | fixed_delay
  | exponential_backoff
  | linear_backoff
  | random_delay
deriving Repr, DecidableEq

/-- `FallbackStrategy`. -/
inductive FallbackStrategy where
  | default_response
  | alternate_node
  | error_node
  | skip_node
  | abort_workflow
deriving Repr, DecidableEq

/-- `ResilienceConfig` with the source's default values. -/
structure ResilienceConfig where
  max_retries : Nat := 3
  retry_strategy : RetryStrategy := RetryStrategy.exponential_backoff
  initial_delay_ms : Int := 1000
  max_delay_ms : Int := 30000
  jitter_ms : Int := 500
  fallback_strategy : FallbackStrategy := FallbackStrategy.error_node
  fallback_node_id : Option String := Option.none
  default_response : Option PyVal := Option.none
  circuit_breaker_threshold : Nat := 5
  circuit_breaker_timeout_ms : Nat := 60000

/-- `ResilienceManager.calculate_retry_delay_ms`.  The two calls to
`random.randint` are modelled by the oracle arguments: `randDelay` is the
value drawn for the RANDOM_DELAY strategy and `randJitter` the jitter draw
from `[-jitter_ms, jitter_ms]`. -/
def calculate_retry_delay_ms (retry_count : Nat) (config : ResilienceConfig)
    (randDelay randJitter : Int) : Int :=
  if config.retry_strategy = RetryStrategy.immediate then
    0
  else
    let delay :=
      if config.retry_strategy = RetryStrategy.fixed_delay then
        config.initial_delay_ms
      else if config.retry_strategy = RetryStrategy.exponential_backoff then
        config.initial_delay_ms * 2 ^ retry_count
      else if config.retry_strategy = RetryStrategy.linear_backoff then
        config.initial_delay_ms * ((retry_count : Int) + 1)
      else if config.retry_strategy = RetryStrategy.random_delay then
        randDelay
      else
        config.initial_delay_ms
    let delay1 := if config.jitter_ms > 0 then delay + randJitter else delay
    min delay1 config.max_delay_ms

/-- `RuleResult` of the rule engine (it carries no severity; severity
lives on the `Rule` object of the external collaborator). -/
structure RuleResult where
  rule_id : String
  passed : Bool
  message : String
  metadata : List (String × PyVal) := []
deriving Repr, DecidableEq

/-- One entry of the `errors` list built by `validate_output`. -/
structure ValidationError where
  rule_id : String
  message : String
  metadata : List (String × PyVal)
deriving Repr, DecidableEq

/-- The `error_context` dictionary returned by `validate_output`. -/
structure ValidationErrorContext where
  error_type : String
  errors : List ValidationError
  retry_count : Nat
deriving Repr, DecidableEq

/-- `ResilienceManager.validate_output`: the results of
`rule_engine.apply_rules` are the input (in dictionary iteration order);
returns `(valid, error_context)` — the unchanged `rule_results` component
of the Python triple is omitted. -/
def validate_output (rule_results : List RuleResult) : Bool × Option ValidationErrorContext :=
  let errors := (rule_results.filter (fun r => !r.passed)).map
    (fun r => ValidationError.mk r.rule_id r.message r.metadata)
  if errors.isEmpty then
    (true, Option.none)
  else
    (false, some (ValidationErrorContext.mk "validation" errors 0))

/-- Result of `ResilienceManager.handle_error`.  `message_after` is the
state of the caller's `message` object when the call returns (the ERROR_NODE
fallback path assigns into `message.metadata`); `context_after` likewise
for the `error_context` dictionary (the retry path increments its
`retry_count` entry). -/
structure HandleErrorResult where
  handled : Bool
  new_message : Option AppletMessage
  next_node_id : Option String
  message_after : AppletMessage
  context_after : List (String × PyVal)
  breaker_after : Option CircuitBreaker
deriving Repr

/-- `ResilienceManager.handle_error`.  `custom_result = some m` models a
registered handler for this error type returning `(True, m)`; `Option.none`
covers no handler, a handler answering `(False, _)` and a handler raising
(all fall through identically).  The retry path's `asyncio.sleep` is a
pure delay and has no further effect on the returned data.  Python `True`
is `PyVal.int 1` (`bool` is an `int` subclass). -/
def handle_error (config : ResilienceConfig) (message : AppletMessage)
    (error_context : List (String × PyVal))
    (custom_result : Option (Option AppletMessage))
    (breaker : Option CircuitBreaker) (now : Nat) : HandleErrorResult :=
  let breaker_after := breaker.map (fun cb => record_failure cb now)
  match custom_result with
  | some newMsg =>
    HandleErrorResult.mk true newMsg Option.none message error_context breaker_after
  | Option.none =>
    let retry_count : Int :=
      match lookupKey error_context "retry_count" with
      | some (PyVal.int n) => n
      | _ => 0
    if retry_count < (config.max_retries : Int) then
      let ctx1 := insertKey error_context "retry_count" (PyVal.int (retry_count + 1))
      HandleErrorResult.mk true (some message) Option.none message ctx1 breaker_after
    else
      match config.fallback_strategy with
      | FallbackStrategy.default_response =>
        match config.default_response with
        | some resp =>
          let fallbackMsg : AppletMessage :=
            AppletMessage.mk resp []
              [("fallback", PyVal.int 1), ("original_error", PyVal.dict error_context)]
          HandleErrorResult.mk true (some fallbackMsg) Option.none message error_context breaker_after
        | Option.none =>
          HandleErrorResult.mk false Option.none Option.none message error_context breaker_after
      | FallbackStrategy.alternate_node =>
        match config.fallback_node_id with
        | some nid =>
          HandleErrorResult.mk true (some message) (some nid) message error_context breaker_after
        | Option.none =>
          HandleErrorResult.mk false Option.none Option.none message error_context breaker_after
      | FallbackStrategy.error_node =>
        match config.fallback_node_id with
        | some nid =>
          let mutated :=
            { message with metadata := insertKey message.metadata "error" (PyVal.dict error_context) }
          HandleErrorResult.mk true (some mutated) (some nid) mutated error_context breaker_after
        | Option.none =>
          HandleErrorResult.mk false Option.none Option.none message error_context breaker_after
      | FallbackStrategy.skip_node =>
        HandleErrorResult.mk true (some message) Option.none message error_context breaker_after
      | FallbackStrategy.abort_workflow =>
        HandleErrorResult.mk false Option.none Option.none message error_context breaker_after

/-- `PersistentMessageBus.publish`: the state of the caller's `message`
object after the call.  `save_result = some id` models
`repository.save_message` returning `id` (the code then assigns
`message.metadata["id"] = id` on the caller's object); `Option.none` models
the repository raising, which is caught and leaves the message untouched. -/
def persistent_publish_message_after (message : AppletMessage) (save_result : Option Int) :
    AppletMessage :=
  match save_result with
  | some mid => { message with metadata := insertKey message.metadata "id" (PyVal.int mid) }
  | Option.none => message

/-- `NestedWorkflowStatus`. -/
inductive NestedWorkflowStatus where
  | pending
  | running
  | completed
  | failed
  | cancelled
deriving Repr, DecidableEq

/-- `NestedWorkflowContext`.  `context_mapping` maps parent context keys to
child context keys, `result_mapping` child result keys to parent context
keys. -/
structure NestedWorkflowContext where
  parent_workflow_id : String
  parent_step_id : String
  child_workflow_id : String
  execution_id : String
  status : NestedWorkflowStatus := NestedWorkflowStatus.pending
  result_message : Option AppletMessage := Option.none
  error_message : Option String := Option.none
  start_time : Option Nat := Option.none
  end_time : Option Nat := Option.none
  context_mapping : List (String × String) := []
  result_mapping : List (String × String) := []
deriving Repr, DecidableEq

/-- `NestedWorkflowEngine._prepare_child_input`: deep-copies the input
message, then copies `context_mapping`-selected keys from the parent's
current message into the copy.  Returns `(child_message, caller's message
after the call)`: every write targets the deep copy, so the second
component is the unchanged input. -/
def prepare_child_input (message : AppletMessage) (parent_message : Option AppletMessage)
    (context_mapping : List (String × String)) : AppletMessage × AppletMessage :=
  let child :=
    match parent_message with
    | Option.none => message
    | some pm =>
      let newCtx :=
        context_mapping.foldl
          (fun ctx kv =>
            match lookupKey pm.context kv.fst with
            | some v => insertKey ctx kv.snd v
            | Option.none => ctx)
          message.context
      { message with context := newCtx }
  (child, message)

/-- `NestedWorkflowEngine._prepare_parent_result`: deep-copies the parent
message and copies `result_mapping`-selected keys from the child's final
context into the copy. -/
def prepare_parent_result (parent_message child_message : AppletMessage)
    (result_mapping : List (String × String)) : AppletMessage :=
  let newCtx :=
    result_mapping.foldl
      (fun ctx kv =>
        match lookupKey child_message.context kv.fst with
        | some v => insertKey ctx kv.snd v
        | Option.none => ctx)
      parent_message.context
  { parent_message with context := newCtx }

/-- Outcome of the child's `execute_workflow` call: a returned final
message, or a raised exception with its text. -/
inductive ChildOutcome where
  | success : AppletMessage → ChildOutcome
  | failure : String → ChildOutcome
deriving Repr

/-- `NestedWorkflowEngine._process_nested_result`: given the nested context
and the parent execution context's current message (`Option.none` when the
parent context or its message is missing), returns the parent's message
afterwards and whether `resume_workflow_from_step` was invoked.  The
function returns early unless the status is COMPLETED. -/
def process_nested_result (ctx : NestedWorkflowContext) (parent_message : Option AppletMessage) :
    Option AppletMessage × Bool :=
  if ctx.status ≠ NestedWorkflowStatus.completed then
    (parent_message, false)
  else
    match parent_message with
    | Option.none => (parent_message, false)
    | some pm =>
      match ctx.result_message with
      | some r => (some (prepare_parent_result pm r ctx.result_mapping), true)
      | Option.none => (some pm, true)

/-- Observable result of `NestedWorkflowEngine._execute_workflow`. -/
structure NestedExecutionResult where
  ctx_after : NestedWorkflowContext
  parent_message_after : Option AppletMessage
  resumed : Bool
deriving Repr

/-- `NestedWorkflowEngine._execute_workflow`: runs the child workflow and
reacts to its outcome.  On success the context is marked COMPLETED and
`_process_nested_result` maps the result back and resumes the parent; on a
raised exception the `except` block marks the context FAILED, records the
error text — and does not resume the parent. -/
def execute_nested_child (ctx : NestedWorkflowContext) (outcome : ChildOutcome)
    (parent_message : Option AppletMessage) (startT endT : Nat) : NestedExecutionResult :=
  match outcome with
  | ChildOutcome.failure e =>
    NestedExecutionResult.mk
      { ctx with status := NestedWorkflowStatus.failed, error_message := some e,
                 start_time := some startT, end_time := some endT }
      parent_message false
  | ChildOutcome.success r =>
    let ctx1 :=
      { ctx with status := NestedWorkflowStatus.completed, result_message := some r,
                 start_time := some startT, end_time := some endT }
    let pr := process_nested_result ctx1 parent_message
    NestedExecutionResult.mk ctx1 pr.fst pr.snd

/-- One entry of a topic's priority queue in `PriorityMessageBus`: the heap
key is `(-priority, arrival timestamp)`, `msgId` identifies the message
object. -/
structure QEntry where
  negPriority : Int
  timestamp : Nat
  msgId : Nat
deriving Repr, DecidableEq

/-- `PriorityMessageBus.publish` pushes this entry: a `PriorityMessage`
contributes its own priority, any other message the default 5. -/
def publishEntry (priority : Option Nat) (timestamp msgId : Nat) : QEntry :=
  QEntry.mk (-((priority.getD 5 : Nat) : Int)) timestamp msgId

/-- Non-strict heap order on queue entries: lexicographic on
`(negPriority, timestamp)`. -/
def keyLe (a b : QEntry) : Prop :=
  a.negPriority < b.negPriority ∨ (a.negPriority = b.negPriority ∧ a.timestamp ≤ b.timestamp)

/-- Strict heap order on queue entries. -/
def keyLt (a b : QEntry) : Prop :=
  a.negPriority < b.negPriority ∨ (a.negPriority = b.negPriority ∧ a.timestamp < b.timestamp)

instance decKeyLe (a b : QEntry) : Decidable (keyLe a b) := by
  unfold keyLe; exact inferInstance

instance decKeyLt (a b : QEntry) : Decidable (keyLt a b) := by
  unfold keyLt; exact inferInstance

/-- `heapq.heappop`: remove a minimal entry (the earliest-pushed one on an
exact key tie) and return it with the remaining queue. -/
def popMin : List QEntry → Option (QEntry × List QEntry)
  | [] => Option.none
  | x :: xs =>
    match popMin xs with
    | Option.none => some (x, [])
    | some (m, rest) => if keyLe x m then some (x, xs) else some (m, x :: rest)

/-- Fuel-bounded pop loop; each pop removes one entry, so `q.length` fuel
drains everything. -/
def drainAux : Nat → List QEntry → List QEntry
  | 0, _ => []
  | Nat.succ fuel, q =>
    match popMin q with
    | Option.none => []
    | some (m, rest) => m :: drainAux fuel rest

/-- The drain loop of `PriorityMessageBus._process_queue`: repeatedly pop
the minimal-key entry (highest priority, FIFO within a priority) and fan it
out to subscribers; the resulting list is the delivery order. -/
def drainQueue (q : List QEntry) : List QEntry :=
  drainAux q.length q

/-- State of one topic of the `MessageBatcher` (the batcher's dictionaries
are all keyed per topic and topics never interact, so one topic's slice is
modelled; message payloads are never inspected by the batcher, so ids stand for them).
`flushed` is the log of batches handed to the registered handler, in
order. -/
structure TopicBatchState where
  batch_size : Nat
  timeout : Nat
  messages : List Nat := []
  lastTime : Option Nat := Option.none
  hasHandler : Bool := false
  flushed : List (List Nat) := []
deriving Repr, DecidableEq

/-- `MessageBatcher._process_batch` for one topic: nothing on an empty
buffer; with no registered handler the buffer is cleared and discarded
(a warning is logged, nothing raised); otherwise the buffer is handed to
the handler (handler exceptions are caught) and reset. -/
def process_batch (s : TopicBatchState) : TopicBatchState :=
  if s.messages.isEmpty then s
  else if !s.hasHandler then { s with messages := [] }
  else { s with messages := [], flushed := s.flushed ++ [s.messages] }

/-- `MessageBatcher.add_message` at time `now`: append to the buffer,
update `last_batch_times[topic] = time.time()` — on every add, not only the
first — then flush if the batch size is reached. -/
def add_message (s : TopicBatchState) (m : Nat) (now : Nat) : TopicBatchState :=
  let s1 := { s with messages := s.messages ++ [m], lastTime := some now }
  if s1.batch_size ≤ s1.messages.length then process_batch s1 else s1

/-- `MessageBatcher._check_timeouts` at time `now` for one topic: flush the
buffer when the timeout has elapsed since the topic's recorded last batch
time and the buffer is non-empty. -/
def check_timeouts (s : TopicBatchState) (now : Nat) : TopicBatchState :=
  match s.lastTime with
  | Option.none => s
  | some lt =>
    if (now : Int) - (lt : Int) ≥ (s.timeout : Int) then
      if !s.messages.isEmpty then process_batch s else s
    else s

/-- The flush `MessageBatcher.stop` performs on a topic with a non-empty
buffer. -/
def stop_flush (s : TopicBatchState) : TopicBatchState :=
  if !s.messages.isEmpty then process_batch s else s

/-- Operations on one topic of the batcher. -/
inductive BatchOp where
  | add : Nat → Nat → BatchOp
  | check : Nat → BatchOp
  | registerHandler : BatchOp
  | unregisterHandler : BatchOp
  | stop : BatchOp
deriving Repr, DecidableEq

/-- Apply one batcher operation. -/
def applyBatchOp (s : TopicBatchState) : BatchOp → TopicBatchState
  | BatchOp.add m now => add_message s m now
  | BatchOp.check now => check_timeouts s now
  | BatchOp.registerHandler => { s with hasHandler := true }
  | BatchOp.unregisterHandler => { s with hasHandler := false }
  | BatchOp.stop => stop_flush s

/-- Run a sequence of batcher operations. -/
def runBatchOps (s : TopicBatchState) : List BatchOp → TopicBatchState
  | [] => s
  | op :: ops => runBatchOps (applyBatchOp s op) ops

theorem popMin_none_iff (q : List QEntry) : popMin q = Option.none ↔ q = [] := by
  cases q with
  | nil => simp [popMin]
  | cons x xs =>
    simp only [popMin]
    constructor
    · intro h
      cases hx : popMin xs with
      | none => rw [hx] at h; simp at h
      | some p =>
        rw [hx] at h
        cases p with
        | mk a b => by_cases hk : keyLe x a <;> simp [hk] at h
    · intro h; exact absurd h (List.cons_ne_nil x xs)

theorem popMin_perm : ∀ {q : List QEntry} {m : QEntry} {rest : List QEntry},
    popMin q = some (m, rest) → List.Perm q (m :: rest) := by
  intro q
  induction q with
  | nil => intro m rest h; simp [popMin] at h
  | cons x xs ih =>
    intro m rest h
    simp only [popMin] at h
    cases hx : popMin xs with
    | none =>
      rw [hx] at h
      cases h
      have hnil : xs = [] := (popMin_none_iff xs).mp hx
      subst hnil
      exact List.Perm.refl _
    | some p =>
      cases p with
      | mk m2 rest2 =>
        rw [hx] at h
        by_cases hk : keyLe x m2
        · simp only [hk, if_true] at h
          cases h
          exact List.Perm.refl _
        · simp only [hk, if_false] at h
          cases h
          have hperm := ih hx
          exact (List.Perm.cons x hperm).trans (List.Perm.swap m x rest2)

theorem keyLe_refl (a : QEntry) : keyLe a a := Or.inr ⟨rfl, Nat.le_refl _⟩

theorem keyLe_trans {a b c : QEntry} (h1 : keyLe a b) (h2 : keyLe b c) : keyLe a c := by
  unfold keyLe at h1 h2 ⊢
  rcases h1 with h1 | ⟨h1e, h1t⟩ <;> rcases h2 with h2 | ⟨h2e, h2t⟩
  · exact Or.inl (lt_trans h1 h2)
  · exact Or.inl (h2e ▸ h1)
  · exact Or.inl (h1e ▸ h2)
  · exact Or.inr ⟨h1e.trans h2e, Nat.le_trans h1t h2t⟩

theorem keyLe_total (a b : QEntry) : keyLe a b ∨ keyLe b a := by
  unfold keyLe
  rcases lt_trichotomy a.negPriority b.negPriority with h | h | h
  · exact Or.inl (Or.inl h)
  · rcases Nat.le_total a.timestamp b.timestamp with ht | ht
    · exact Or.inl (Or.inr ⟨h, ht⟩)
    · exact Or.inr (Or.inr ⟨h.symm, ht⟩)
  · exact Or.inr (Or.inl h)

theorem keyLt_not_keyLe {a b : QEntry} (h : keyLt a b) : ¬ keyLe b a := by
  unfold keyLt at h
  unfold keyLe
  rcases h with h | ⟨he, ht⟩
  · rintro (h2 | ⟨h2e, _⟩)
    · exact absurd (lt_trans h h2) (lt_irrefl _)
    · exact absurd (h2e ▸ h) (lt_irrefl _)
  · rintro (h2 | ⟨h2e, h2t⟩)
    · exact absurd (he ▸ h2) (lt_irrefl _)
    · exact absurd (Nat.lt_of_lt_of_le ht h2t) (Nat.lt_irrefl _)

theorem keyLt_irrefl (a : QEntry) : ¬ keyLt a a := by
  intro h
  exact keyLt_not_keyLe h (keyLe_refl a)

theorem popMin_min : ∀ {q : List QEntry} {m : QEntry} {rest : List QEntry},
    popMin q = some (m, rest) → ∀ y ∈ q, keyLe m y := by
  intro q
  induction q with
  | nil => intro m rest h; simp [popMin] at h
  | cons x xs ih =>
    intro m rest h y hy
    simp only [popMin] at h
    cases hx : popMin xs with
    | none =>
      rw [hx] at h
      cases h
      have hnil : xs = [] := (popMin_none_iff xs).mp hx
      subst hnil
      rcases List.mem_singleton.mp hy with rfl
      exact keyLe_refl _
    | some p =>
      cases p with
      | mk m2 rest2 =>
        rw [hx] at h
        by_cases hk : keyLe x m2
        · simp only [hk, if_true] at h
          cases h
          rcases List.mem_cons.mp hy with rfl | hy2
          · exact keyLe_refl _
          · exact keyLe_trans hk (ih hx y hy2)
        · simp only [hk, if_false] at h
          cases h
          rcases List.mem_cons.mp hy with rfl | hy2
          · rcases keyLe_total m y with hmy | hym
            · exact hmy
            · exact absurd hym hk
          · exact ih hx y hy2

theorem popMin_length : ∀ {q : List QEntry} {m : QEntry} {rest : List QEntry},
    popMin q = some (m, rest) → rest.length + 1 = q.length := by
  intro q m rest h
  have hperm := popMin_perm h
  have := hperm.length_eq
  simpa using this.symm

theorem drainAux_perm : ∀ (fuel : Nat) (q : List QEntry), q.length ≤ fuel →
    List.Perm (drainAux fuel q) q := by
  intro fuel
  induction fuel with
  | zero =>
    intro q hq
    have hq0 : q = [] := List.eq_nil_of_length_eq_zero (Nat.le_zero.mp hq)
    subst hq0
    simp [drainAux]
  | succ fuel ih =>
    intro q hq
    cases hx : popMin q with
    | none =>
      have hq0 : q = [] := (popMin_none_iff q).mp hx
      subst hq0
      simp [drainAux, popMin]
    | some p =>
      cases p with
      | mk m rest =>
        have hlen := popMin_length hx
        have hr : rest.length ≤ fuel := by omega
        simp only [drainAux, hx]
        exact ((ih rest hr).cons m).trans (popMin_perm hx).symm

theorem drainQueue_perm (q : List QEntry) : List.Perm (drainQueue q) q :=
  drainAux_perm q.length q (Nat.le_refl _)

theorem drainAux_sorted : ∀ (fuel : Nat) (q : List QEntry), q.length ≤ fuel →
    List.Pairwise keyLe (drainAux fuel q) := by
  intro fuel
  induction fuel with
  | zero => intro q hq; simp [drainAux]
  | succ fuel ih =>
    intro q hq
    cases hx : popMin q with
    | none => simp [drainAux, hx]
    | some p =>
      cases p with
      | mk m rest =>
        have hlen := popMin_length hx
        have hr : rest.length ≤ fuel := by omega
        simp only [drainAux, hx]
        refine List.Pairwise.cons ?_ (ih rest hr)
        intro y hy
        have hyrest : y ∈ rest := (drainAux_perm fuel rest hr).mem_iff.mp hy
        have hyq : y ∈ q := (popMin_perm hx).mem_iff.mpr (List.mem_cons_of_mem m hyrest)
        exact popMin_min hx y hyq

theorem drainQueue_sorted (q : List QEntry) : List.Pairwise keyLe (drainQueue q) :=
  drainAux_sorted q.length q (Nat.le_refl _)

theorem drainQueue_pos_lt (q : List QEntry) {a b : QEntry} (hab : keyLt a b) :
    ∀ i j, (drainQueue q).get? i = some a → (drainQueue q).get? j = some b → i < j := by
  intro i j hi hj
  by_contra hij
  push_neg at hij
  rcases List.get?_eq_some.mp hi with ⟨hilen, hgi⟩
  rcases List.get?_eq_some.mp hj with ⟨hjlen, hgj⟩
  rcases Nat.eq_or_lt_of_le hij with heq | hlt
  · have hba : a = b := by
      subst heq
      rw [← hgi, ← hgj]
    subst hba
    exact keyLt_irrefl a hab
  · have hs := List.pairwise_iff_get.mp (drainQueue_sorted q)
    have hba : keyLe b a := by
      have hsg := hs ⟨j, hjlen⟩ ⟨i, hilen⟩ hlt
      rw [hgi, hgj] at hsg
      exact hsg
    exact keyLt_not_keyLe hab hba

/-- Claim C3: on one topic, for two queued (still undelivered) messages, if
the one published later has strictly higher priority it is nevertheless
delivered first, and messages of equal priority are delivered in arrival
(FIFO) order: in the drain order of the topic's priority queue, an entry
with a strictly smaller heap key `(-priority, arrival-time)` always appears
strictly earlier. -/
theorem priority_delivery_order (q : List QEntry) (pr1 pr2 : Option Nat)
    (t1 t2 id1 id2 : Nat)
    (h1 : publishEntry pr1 t1 id1 ∈ q) (h2 : publishEntry pr2 t2 id2 ∈ q)
    (hp : pr2.getD 5 < pr1.getD 5 ∨ (pr1.getD 5 = pr2.getD 5 ∧ t1 < t2)) :
    publishEntry pr1 t1 id1 ∈ drainQueue q ∧
    publishEntry pr2 t2 id2 ∈ drainQueue q ∧
    ∀ i j, (drainQueue q).get? i = some (publishEntry pr1 t1 id1) →
      (drainQueue q).get? j = some (publishEntry pr2 t2 id2) → i < j := by
  have hlt : keyLt (publishEntry pr1 t1 id1) (publishEntry pr2 t2 id2) := by
    unfold keyLt publishEntry
    rcases hp with hp | ⟨hpe, hpt⟩
    · left
      simp only
      omega
    · right
      constructor
      · simp only
        omega
      · exact hpt
  refine ⟨(drainQueue_perm q).mem_iff.mpr h1, (drainQueue_perm q).mem_iff.mpr h2, ?_⟩
  exact drainQueue_pos_lt q hlt

/-- Witness for C3 at a concrete queue: a priority-9 message published
after a priority-2 one is delivered first. -/
theorem priority_delivery_order_witness :
    publishEntry (some 9) 1 1 ∈ drainQueue [publishEntry (some 2) 0 0, publishEntry (some 9) 1 1] :=
  (priority_delivery_order [publishEntry (some 2) 0 0, publishEntry (some 9) 1 1]
    (some 9) (some 2) 1 0 1 0 (by decide) (by decide) (by decide)).1

/-- Claim C8: for the exponential-backoff strategy with a 1000 ms initial
delay and zero jitter, the computed retry delays at retry counts 0, 1, 2, 3
are exactly 1000, 2000, 4000, 8000 ms (the configured cap being at least
8000 ms, as with the default 30000), and every computed delay is capped at
`max_delay_ms`. -/
theorem exponential_retry_delays (cfg : ResilienceConfig)
    (hs : cfg.retry_strategy = RetryStrategy.exponential_backoff)
    (hi : cfg.initial_delay_ms = 1000) (hj : cfg.jitter_ms = 0)
    (hm : 8000 ≤ cfg.max_delay_ms) (r j : Int) :
    calculate_retry_delay_ms 0 cfg r j = 1000 ∧
    calculate_retry_delay_ms 1 cfg r j = 2000 ∧
    calculate_retry_delay_ms 2 cfg r j = 4000 ∧
    calculate_retry_delay_ms 3 cfg r j = 8000 ∧
    ∀ (n : Nat) (r2 j2 : Int), calculate_retry_delay_ms n cfg r2 j2 ≤ cfg.max_delay_ms := by
  have he : ∀ (n : Nat) (r2 j2 : Int),
      calculate_retry_delay_ms n cfg r2 j2 = min (cfg.initial_delay_ms * 2 ^ n) cfg.max_delay_ms := by
    intro n r2 j2
    unfold calculate_retry_delay_ms
    rw [hs, hj]
    norm_num
    rw [if_neg (by decide), if_neg (by decide)]
  refine ⟨?_, ?_, ?_, ?_, ?_⟩
  · rw [he, hi]
    norm_num
    omega
  · rw [he, hi]
    norm_num
    omega
  · rw [he, hi]
    norm_num
    omega
  · rw [he, hi]
    norm_num
    omega
  · intro n r2 j2
    rw [he]
    exact min_le_right _ _

/-- Witness for C8 at the default configuration with jitter disabled. -/
theorem exponential_retry_delays_witness :
    calculate_retry_delay_ms 3 ({ jitter_ms := 0 } : ResilienceConfig) 0 0 = 8000 :=
  (exponential_retry_delays { jitter_ms := 0 } rfl rfl rfl (by norm_num) 0 0).2.2.2.1

/-- Concrete breaker for exercising C2: one failure opens it, 100 ms reset
timeout. -/
def cbC2 : CircuitBreaker := { failure_threshold := 1, reset_timeout_ms := 100 }

/-- The breaker after its single (threshold-reaching) failure at t = 0. -/
def cbC2open : CircuitBreaker := record_failure cbC2 0

/-- The breaker after the first `allow_request` poll once the reset timeout
has elapsed (t = 200): it has moved to half-open. -/
def cbC2half : CircuitBreaker := (allow_request cbC2open 200).snd

/-- Claim C2 (divergence exhibited): after `threshold` consecutive failures
`allow_request` is false before the reset timeout, and the first poll after
the timeout returns true moving the breaker to half-open — but a second
poll, with the breaker still half-open (no probe outcome recorded), returns
true again, contradicting the claimed single half-open probe (and the
code's own "allow one request to test the service" comment). -/
theorem circuit_breaker_half_open_repolls :
    (allow_request cbC2open 50).fst = false ∧
    (allow_request cbC2open 200).fst = true ∧
    cbC2half.state = CBState.halfOpen ∧
    (allow_request cbC2half 200).fst = true ∧
    (allow_request cbC2half 200).snd = cbC2half := by
  decide

/-- A rule result failing under a non-error severity, for C7: the rule
engine's rule carries severity `"warning"`. -/
def rrC7 : RuleResult := { rule_id := "r1", passed := false, message := "tone too informal" }

/-- Severity assignment of the rule engine's registered rules in the C7
scenario: every rule has severity `"warning"`. -/
def sevC7 : String → String := fun _ => "warning"

/-- Claim C7 counterexample: `validate_output` reports invalid for a single
failing rule whose severity is `"warning"`, so "invalid exactly when some
applied rule fails with severity error" is false — the code never consults
severity. -/
theorem validate_output_severity_counterexample :
    ¬ (((validate_output [rrC7]).fst = false) ↔
      ∃ r ∈ [rrC7], r.passed = false ∧ sevC7 r.rule_id = "error") := by
  decide

/-- Claim C7 as amended: `validate_output` returns invalid exactly when
some applied rule fails — regardless of the rule's severity — and in that
case the error context carries the failing rules' ids, messages and
metadata with `retry_count = 0` and error type `"validation"`. -/
theorem validate_output_any_failure_invalid (results : List RuleResult) :
    ((validate_output results).fst = false ↔ ∃ r ∈ results, r.passed = false) ∧
    ((validate_output results).snd =
      if (results.filter (fun r => !r.passed)).isEmpty then Option.none
      else some (ValidationErrorContext.mk "validation"
        ((results.filter (fun r => !r.passed)).map
          (fun r => ValidationError.mk r.rule_id r.message r.metadata)) 0)) := by
  constructor
  · unfold validate_output
    by_cases h : (results.filter (fun r => !r.passed)) = []
    · simp only [h, List.map_nil, List.isEmpty_nil, if_true]
      constructor
      · intro hc
        exact absurd hc (by simp)
      · rintro ⟨r, hr, hrp⟩
        have hall := List.filter_eq_nil_iff.mp h r hr
        simp [hrp] at hall
    · have hne : ¬ ((results.filter (fun r => !r.passed)).map
          (fun r => ValidationError.mk r.rule_id r.message r.metadata)).isEmpty = true := by
        simp only [List.isEmpty_iff, List.map_eq_nil_iff]
        exact h
      rcases List.exists_mem_of_ne_nil _ h with ⟨r, hr⟩
      have hmem := List.mem_filter.mp hr
      constructor
      · intro _
        exact ⟨r, hmem.1, by simpa using hmem.2⟩
      · intro _
        simp only [Bool.not_eq_true] at hne
        simp [hne]
  · unfold validate_output
    by_cases h : (results.filter (fun r => !r.passed)) = []
    · simp [h]
    · have hne : ¬ ((results.filter (fun r => !r.passed)).map
          (fun r => ValidationError.mk r.rule_id r.message r.metadata)) = [] := by
        simp only [List.map_eq_nil_iff]
        exact h
      simp [h, hne]

/-- A failing rule result for the C7 witness. -/
def rrC7w : RuleResult := { rule_id := "r2", passed := false, message := "schema mismatch" }

/-- Witness for the amended C7 at a concrete result set: one failing rule
makes the output invalid. -/
theorem validate_output_any_failure_invalid_witness :
    (validate_output [rrC7w]).fst = false :=
  (validate_output_any_failure_invalid [rrC7w]).1.mpr ⟨rrC7w, by decide, by decide⟩

/-- Condition and message exhibiting the C6 divergence: a `gt` comparison
between an int metadata value and a string target. -/
def condC6 : BranchCondition :=
  { condition_type := ConditionType.metadata_check, target_step_id := "t",
    metadata_key := some "k", metadata_value := PyVal.str "a",
    metadata_comparison := some "gt" }

/-- Message whose metadata holds an int under the compared key. -/
def msgC6 : AppletMessage :=
  { content := PyVal.none, context := [], metadata := [("k", PyVal.int 3)] }

/-- Claim C6 counterexample: with the key present and an int stored value
compared via `gt` against a string target, `evaluate_condition` raises
`TypeError` (Python `3 > "a"`) instead of returning false — the claim that
a type-incompatible comparison yields false never an error fails for the
ordering operators. -/
theorem evaluate_condition_type_error_counterexample :
    lookupKey msgC6.metadata "k" = some (PyVal.int 3) ∧
    evaluate_condition condC6 msgC6 = Option.none := by
  constructor
  · rfl
  · rfl

theorem compare_values_isSome (v t : PyVal) (cmp : Option String)
    (h1 : cmp ≠ some "gt") (h2 : cmp ≠ some "gte")
    (h3 : cmp ≠ some "lt") (h4 : cmp ≠ some "lte")
    (h5 : cmp ≠ some "contains") :
    (compare_values v t cmp).isSome = true := by
  unfold compare_values
  split_ifs with g1 g2 g3 g4
  · simp
  · simp
  · cases v <;> cases t <;> simp
  · cases v <;> cases t <;> simp
  · simp

theorem compare_values_contains (v t : PyVal) :
    compare_values v t (some "contains") = pyContains v t := by
  unfold compare_values
  simp

theorem pyContains_raises_iff (v t : PyVal) :
    (pyContains v t).isSome = false ↔
    ((∃ d, v = PyVal.dict d) ∧
      ((∃ l, t = PyVal.list l) ∨ (∃ d2, t = PyVal.dict d2))) := by
  cases v <;> cases t <;> simp [pyContains]

/-- Claim C6 as amended: for METADATA_CHECK and CONTEXT_CHECK conditions a
missing key yields false, and for the comparison operators `eq`, `neq`,
`startswith`, `endswith` and anything unknown the evaluation always
returns a boolean without raising; `gt`/`gte`/`lt`/`lte` raise `TypeError`
out of `evaluate_condition` on type-incompatible values, and `contains`
delegates to Python membership, raising exactly when the stored value is a
dict and the target is unhashable (a list or a dict).  Only
`evaluate_branch`, not `evaluate_condition`, catches these errors. -/
theorem evaluate_condition_lookup_safe (c : BranchCondition) (m : AppletMessage) :
    (c.condition_type = ConditionType.metadata_check →
      ((c.metadata_key = Option.none → evaluate_condition c m = some false) ∧
       (∀ k, c.metadata_key = some k → lookupKey m.metadata k = Option.none →
         evaluate_condition c m = some false) ∧
       (c.metadata_comparison ≠ some "gt" → c.metadata_comparison ≠ some "gte" →
        c.metadata_comparison ≠ some "lt" → c.metadata_comparison ≠ some "lte" →
        c.metadata_comparison ≠ some "contains" →
        (evaluate_condition c m).isSome = true) ∧
       (∀ k v, c.metadata_key = some k → lookupKey m.metadata k = some v →
        c.metadata_comparison = some "contains" →
        evaluate_condition c m = pyContains v c.metadata_value ∧
        ((evaluate_condition c m).isSome = false ↔
          (∃ d, v = PyVal.dict d) ∧
          ((∃ l, c.metadata_value = PyVal.list l) ∨
           (∃ d2, c.metadata_value = PyVal.dict d2)))))) ∧
    (c.condition_type = ConditionType.context_check →
      ((c.context_key = Option.none → evaluate_condition c m = some false) ∧
       (∀ k, c.context_key = some k → lookupKey m.context k = Option.none →
         evaluate_condition c m = some false) ∧
       (c.context_comparison ≠ some "gt" → c.context_comparison ≠ some "gte" →
        c.context_comparison ≠ some "lt" → c.context_comparison ≠ some "lte" →
        c.context_comparison ≠ some "contains" →
        (evaluate_condition c m).isSome = true) ∧
       (∀ k v, c.context_key = some k → lookupKey m.context k = some v →
        c.context_comparison = some "contains" →
        evaluate_condition c m = pyContains v c.context_value ∧
        ((evaluate_condition c m).isSome = false ↔
          (∃ d, v = PyVal.dict d) ∧
          ((∃ l, c.context_value = PyVal.list l) ∨
           (∃ d2, c.context_value = PyVal.dict d2)))))) := by
  constructor
  · intro hct
    refine ⟨?_, ?_, ?_, ?_⟩
    · intro hk
      unfold evaluate_condition
      rw [hct]
      simp [hk]
    · intro k hk hlook
      unfold evaluate_condition
      rw [hct]
      simp [hk, hlook]
    · intro g1 g2 g3 g4 g5
      have hsafe := fun v =>
        compare_values_isSome v c.metadata_value c.metadata_comparison g1 g2 g3 g4 g5
      unfold evaluate_condition
      rw [hct]
      cases hk : c.metadata_key with
      | none => simp
      | some k =>
        cases hl : lookupKey m.metadata k with
        | none => simp [hl]
        | some v => simp [hl, hsafe v]
    · intro k v hk hv hcmp
      have heval : evaluate_condition c m = pyContains v c.metadata_value := by
        unfold evaluate_condition
        rw [hct]
        simp only [hk, hv, hcmp]
        exact compare_values_contains v c.metadata_value
      refine ⟨heval, ?_⟩
      rw [heval]
      exact pyContains_raises_iff v c.metadata_value
  · intro hct
    refine ⟨?_, ?_, ?_, ?_⟩
    · intro hk
      unfold evaluate_condition
      rw [hct]
      simp [hk]
    · intro k hk hlook
      unfold evaluate_condition
      rw [hct]
      simp [hk, hlook]
    · intro g1 g2 g3 g4 g5
      have hsafe := fun v =>
        compare_values_isSome v c.context_value c.context_comparison g1 g2 g3 g4 g5
      unfold evaluate_condition
      rw [hct]
      cases hk : c.context_key with
      | none => simp
      | some k =>
        cases hl : lookupKey m.context k with
        | none => simp [hl]
        | some v => simp [hl, hsafe v]
    · intro k v hk hv hcmp
      have heval : evaluate_condition c m = pyContains v c.context_value := by
        unfold evaluate_condition
        rw [hct]
        simp only [hk, hv, hcmp]
        exact compare_values_contains v c.context_value
      refine ⟨heval, ?_⟩
      rw [heval]
      exact pyContains_raises_iff v c.context_value

/-- Condition with a key absent from the message, for the C6 witness. -/
def condC6w : BranchCondition :=
  { condition_type := ConditionType.metadata_check, target_step_id := "t",
    metadata_key := some "absent", metadata_comparison := some "eq" }

/-- Message with empty metadata, for the C6 witness. -/
def msgC6w : AppletMessage := { content := PyVal.none, context := [], metadata := [] }

/-- Witness for the amended C6 at a concrete condition: a missing metadata
key evaluates to false. -/
theorem evaluate_condition_lookup_safe_witness :
    evaluate_condition condC6w msgC6w = some false :=
  ((evaluate_condition_lookup_safe condC6w msgC6w).1 rfl).2.1 "absent" rfl rfl

/-- Nested context for the C1 counterexample. -/
def ctxC1 : NestedWorkflowContext :=
  { parent_workflow_id := "p", parent_step_id := "s1", child_workflow_id := "c",
    execution_id := "e1", status := NestedWorkflowStatus.running,
    result_mapping := [("y", "x")] }

/-- Parent message held while the C1 parent is paused. -/
def msgC1 : AppletMessage :=
  { content := PyVal.str "data", context := [("x", PyVal.int 1)], metadata := [] }

/-- Claim C1 counterexample: when the child workflow raises, the nested
context is indeed recorded FAILED — but the parent is not resumed (the
`except` block never calls `_process_nested_result`, which is the only
caller of `resume_workflow_from_step`), contradicting the claimed
resumption on child failure. -/
theorem nested_child_failure_counterexample :
    (execute_nested_child ctxC1 (ChildOutcome.failure "boom") (some msgC1) 0 5).ctx_after.status
      = NestedWorkflowStatus.failed ∧
    (execute_nested_child ctxC1 (ChildOutcome.failure "boom") (some msgC1) 0 5).resumed
      = false := by
  decide

/-- Claim C1 as amended: on a child failure the status is recorded FAILED
with the error text, but the parent is NOT resumed and its held message is
untouched — `_process_nested_result` runs only on the success path and
returns early unless the status is COMPLETED, so the parent stays paused at
the nested step; only a successful child (with the parent context and its
message present) maps results back and resumes the parent. -/
theorem nested_child_failure_no_resume (ctx : NestedWorkflowContext) (e : String)
    (pm : Option AppletMessage) (t1 t2 : Nat) :
    ((execute_nested_child ctx (ChildOutcome.failure e) pm t1 t2).ctx_after =
      { ctx with status := NestedWorkflowStatus.failed, error_message := some e,
                 start_time := some t1, end_time := some t2 }) ∧
    ((execute_nested_child ctx (ChildOutcome.failure e) pm t1 t2).resumed = false) ∧
    ((execute_nested_child ctx (ChildOutcome.failure e) pm t1 t2).parent_message_after = pm) ∧
    (∀ (ctx2 : NestedWorkflowContext) (pm2 : Option AppletMessage),
      ctx2.status ≠ NestedWorkflowStatus.completed →
      process_nested_result ctx2 pm2 = (pm2, false)) ∧
    (∀ (r pmsg : AppletMessage),
      (execute_nested_child ctx (ChildOutcome.success r) (some pmsg) t1 t2).resumed = true ∧
      (execute_nested_child ctx (ChildOutcome.success r) (some pmsg) t1 t2).parent_message_after =
        some (prepare_parent_result pmsg r ctx.result_mapping)) := by
  refine ⟨rfl, rfl, rfl, ?_, ?_⟩
  · intro ctx2 pm2 h2
    unfold process_nested_result
    rw [if_pos h2]
  · intro r pmsg
    constructor
    · simp [execute_nested_child, process_nested_result]
    · simp [execute_nested_child, process_nested_result]

/-- Pending nested context for the C1 witness. -/
def ctxC1w : NestedWorkflowContext :=
  { parent_workflow_id := "p", parent_step_id := "s2", child_workflow_id := "c",
    execution_id := "e2" }

/-- Witness for the amended C1 at a concrete pending context: a
non-completed status makes `_process_nested_result` a no-op. -/
theorem nested_child_failure_no_resume_witness :
    process_nested_result ctxC1w Option.none = (Option.none, false) :=
  (nested_child_failure_no_resume ctxC1w "err" Option.none 0 1).2.2.2.1
    ctxC1w Option.none (by decide)

theorem lookupKey_insertKey (d : List (String × PyVal)) (k : String) (v : PyVal) :
    lookupKey (insertKey d k v) k = some v := by
  unfold insertKey
  by_cases h : (d.find? (fun p => p.fst = k)).isSome = true
  · rw [if_pos h]
    induction d with
    | nil => simp at h
    | cons a d ih =>
      by_cases ha : a.fst = k
      · simp [lookupKey, ha]
      · have h2 : (d.find? (fun p => p.fst = k)).isSome = true := by
          simpa [List.find?_cons_of_neg, ha] using h
        simpa [lookupKey, List.find?_cons_of_neg, ha] using ih h2
  · rw [if_neg h]
    have hnone : d.find? (fun p => p.fst = k) = Option.none := by
      cases hf : d.find? (fun p => p.fst = k) with
      | none => rfl
      | some p => rw [hf] at h; simp at h
    simp [lookupKey, List.find?_append, hnone]

/-- A message without an `"id"` metadata key, for the C9 counterexample. -/
def msgC9 : AppletMessage := { content := PyVal.str "hello", context := [], metadata := [] }

/-- A message without stored `"id"`, for the C9 witness. -/
def msgC9w : AppletMessage :=
  { content := PyVal.str "later", context := [], metadata := [("k", PyVal.int 2)] }

/-- Claim C9 counterexample: `PersistentMessageBus.publish` mutates the
caller's message in place — after a successful repository save the caller's
object has gained an `"id"` metadata entry, so the message was not treated
as a value at the publish-persistence boundary. -/
theorem publish_mutates_message_counterexample :
    persistent_publish_message_after msgC9 (some 7) ≠ msgC9 := by
  decide

/-- Claim C9 as amended: the nested-workflow input mapping deep-copies and
leaves the caller's message untouched, but two boundaries do mutate the
caller's message object in place: publish persistence writes the database
id into `metadata["id"]`, and the exhausted-retries ERROR_NODE fallback of
`handle_error` writes the error context into `metadata["error"]` (both
changing the caller's object whenever the key did not already hold that
value). -/
theorem message_boundary_mutation (msg : AppletMessage) (mid : Int) :
    (∀ (pm : Option AppletMessage) (mapping : List (String × String)),
      (prepare_child_input msg pm mapping).snd = msg) ∧
    (persistent_publish_message_after msg (some mid) =
      { msg with metadata := insertKey msg.metadata "id" (PyVal.int mid) }) ∧
    (persistent_publish_message_after msg Option.none = msg) ∧
    (lookupKey msg.metadata "id" ≠ some (PyVal.int mid) →
      persistent_publish_message_after msg (some mid) ≠ msg) ∧
    (∀ (cfg : ResilienceConfig) (ectx : List (String × PyVal))
        (br : Option CircuitBreaker) (now : Nat) (nid : String) (rc : Int),
      cfg.fallback_strategy = FallbackStrategy.error_node →
      cfg.fallback_node_id = some nid →
      lookupKey ectx "retry_count" = some (PyVal.int rc) →
      (cfg.max_retries : Int) ≤ rc →
      (handle_error cfg msg ectx Option.none br now).message_after =
        { msg with metadata := insertKey msg.metadata "error" (PyVal.dict ectx) } ∧
      (lookupKey msg.metadata "error" ≠ some (PyVal.dict ectx) →
        (handle_error cfg msg ectx Option.none br now).message_after ≠ msg)) := by
  refine ⟨fun pm mapping => rfl, rfl, rfl, ?_, ?_⟩
  · intro hne heq
    apply hne
    have hmeta : insertKey msg.metadata "id" (PyVal.int mid) = msg.metadata := by
      have := congrArg AppletMessage.metadata heq
      simpa using this
    rw [← hmeta]
    exact lookupKey_insertKey msg.metadata "id" (PyVal.int mid)
  · intro cfg ectx br now nid rc hfs hfn hrc hge
    have hnlt : ¬ ((rc : Int) < (cfg.max_retries : Int)) := by omega
    have hmut : (handle_error cfg msg ectx Option.none br now).message_after =
        { msg with metadata := insertKey msg.metadata "error" (PyVal.dict ectx) } := by
      unfold handle_error
      simp only [hrc, hnlt, hfs, hfn, if_false]
    refine ⟨hmut, ?_⟩
    intro hne heq
    apply hne
    rw [hmut] at heq
    have hmeta : insertKey msg.metadata "error" (PyVal.dict ectx) = msg.metadata := by
      have := congrArg AppletMessage.metadata heq
      simpa using this
    rw [← hmeta]
    exact lookupKey_insertKey msg.metadata "error" (PyVal.dict ectx)

/-- Witness for the amended C9 at a concrete message: publishing with a
fresh database id changes the caller's message object. -/
theorem message_boundary_mutation_witness :
    persistent_publish_message_after msgC9w (some 3) ≠ msgC9w :=
  (message_boundary_mutation msgC9w 3).2.2.2.1 (by decide)

/-- Topic state for the C5 counterexample: batch size 3, timeout 10,
handler registered. -/
def sC5 : TopicBatchState := { batch_size := 3, timeout := 10, hasHandler := true }

/-- The C5 run: first message arrives at t = 0, a second at t = 6, and the
periodic check fires at t = 10. -/
def sC5run : TopicBatchState := check_timeouts (add_message (add_message sC5 1 0) 2 6) 10

/-- Claim C5 counterexample: with timeout 10 and the first message buffered
at t = 0, the check at t = 10 flushes nothing — the second message's
arrival at t = 6 moved the deadline (`last_batch_times` is updated on every
add), so the flush does not happen when the timeout since the FIRST
buffered message elapses. -/
theorem batch_timeout_counterexample :
    sC5run.flushed = [] ∧ sC5run.messages = [1, 2] ∧ sC5run.lastTime = some 6 := by
  decide

/-- Claim C5 as amended: the periodic check flushes a non-empty under-sized
batch exactly when the configured timeout has elapsed since the arrival of
the MOST RECENT buffered message: every `add_message` resets the topic's
recorded batch time to its own arrival time, moving the deadline. -/
theorem batch_timeout_last_message (s : TopicBatchState) (now lt : Nat)
    (hl : s.lastTime = some lt) (hh : s.hasHandler = true) (hm : s.messages ≠ []) :
    ((check_timeouts s now).flushed = s.flushed ++ [s.messages] ↔ lt + s.timeout ≤ now) ∧
    (lt + s.timeout ≤ now → check_timeouts s now =
      { s with messages := [], flushed := s.flushed ++ [s.messages] }) ∧
    (now < lt + s.timeout → check_timeouts s now = s) ∧
    (∀ (m t : Nat), (add_message s m t).lastTime = some t) := by
  have hpb : process_batch s = { s with messages := [], flushed := s.flushed ++ [s.messages] } := by
    unfold process_batch
    rw [if_neg (by simp [List.isEmpty_iff, hm]), if_neg (by simp [hh])]
  have hcheck : check_timeouts s now =
      if (now : Int) - (lt : Int) ≥ (s.timeout : Int) then process_batch s else s := by
    unfold check_timeouts
    simp only [hl]
    by_cases hcond : (now : Int) - (lt : Int) ≥ (s.timeout : Int)
    · rw [if_pos hcond, if_pos hcond, if_pos (by simp [List.isEmpty_iff, hm])]
    · rw [if_neg hcond, if_neg hcond]
  refine ⟨?_, ?_, ?_, ?_⟩
  · rw [hcheck]
    by_cases hcond : (now : Int) - (lt : Int) ≥ (s.timeout : Int)
    · rw [if_pos hcond, hpb]
      simp only [eq_self_iff_true, true_iff]
      omega
    · rw [if_neg hcond]
      constructor
      · intro heq
        have hlen := congrArg List.length heq
        simp at hlen
      · intro hge
        exact absurd (by omega : (now : Int) - (lt : Int) ≥ (s.timeout : Int)) hcond
  · intro hge
    rw [hcheck, if_pos (by omega), hpb]
  · intro hltn
    rw [hcheck, if_neg (by omega)]
  · intro m t
    have hplt : ∀ s2 : TopicBatchState, (process_batch s2).lastTime = s2.lastTime := by
      intro s2
      unfold process_batch
      split_ifs <;> rfl
    simp only [add_message]
    split_ifs with hsz
    · rw [hplt]
    · rfl

/-- Topic state for the C5 witness. -/
def sC5w : TopicBatchState :=
  { batch_size := 5, timeout := 10, messages := [7], lastTime := some 0, hasHandler := true }

/-- Witness for the amended C5: once the timeout since the last (here only)
message has elapsed, the check flushes the buffered batch. -/
theorem batch_timeout_last_message_witness :
    check_timeouts sC5w 10 = { sC5w with messages := [], flushed := sC5w.flushed ++ [sC5w.messages] } :=
  (batch_timeout_last_message sC5w 10 0 rfl rfl (by decide)).2.1 (by decide)

theorem process_batch_cases (s : TopicBatchState) :
    process_batch s = s ∨
    process_batch s = { s with messages := [] } ∨
    process_batch s = { s with messages := [], flushed := s.flushed ++ [s.messages] } := by
  unfold process_batch
  split_ifs <;> simp

theorem check_timeouts_cases (s : TopicBatchState) (now : Nat) :
    check_timeouts s now = s ∨ check_timeouts s now = process_batch s := by
  unfold check_timeouts
  cases hl : s.lastTime with
  | none => exact Or.inl rfl
  | some lt =>
    by_cases hcond : (now : Int) - (lt : Int) ≥ (s.timeout : Int)
    · by_cases hne : (!s.messages.isEmpty) = true
      · right
        show (if (now : Int) - (lt : Int) ≥ (s.timeout : Int) then
            if !s.messages.isEmpty then process_batch s else s
          else s) = process_batch s
        rw [if_pos hcond, if_pos hne]
      · left
        show (if (now : Int) - (lt : Int) ≥ (s.timeout : Int) then
            if !s.messages.isEmpty then process_batch s else s
          else s) = s
        rw [if_pos hcond, if_neg hne]
    · left
      show (if (now : Int) - (lt : Int) ≥ (s.timeout : Int) then
          if !s.messages.isEmpty then process_batch s else s
        else s) = s
      rw [if_neg hcond]

theorem stop_flush_cases (s : TopicBatchState) :
    stop_flush s = s ∨ stop_flush s = process_batch s := by
  unfold stop_flush
  split_ifs <;> simp

theorem applyBatchOp_no_new (m : Nat) (s : TopicBatchState) (op : BatchOp)
    (hm : m ∉ s.messages) (hop : ∀ t, op ≠ BatchOp.add m t) :
    m ∉ (applyBatchOp s op).messages ∧
    ∀ b ∈ (applyBatchOp s op).flushed, b ∈ s.flushed ∨ m ∉ b := by
  have hgen : ∀ s2 : TopicBatchState, m ∉ s2.messages → s2.flushed = s.flushed →
      m ∉ (process_batch s2).messages ∧
      ∀ b ∈ (process_batch s2).flushed, b ∈ s.flushed ∨ m ∉ b := by
    intro s2 hm2 hf2
    rcases process_batch_cases s2 with hp | hp | hp <;> rw [hp]
    · exact ⟨hm2, fun b hb => Or.inl (hf2 ▸ hb)⟩
    · exact ⟨by simp, fun b hb => Or.inl (hf2 ▸ hb)⟩
    · refine ⟨by simp, fun b hb => ?_⟩
      rw [hf2] at hb
      rcases List.mem_append.mp hb with hb2 | hb2
      · exact Or.inl hb2
      · rcases List.mem_singleton.mp hb2 with rfl
        exact Or.inr hm2
  cases op with
  | add m2 t =>
    have hm2 : m2 ≠ m := fun hc => (hop t) (by rw [hc])
    have hms1 : m ∉ s.messages ++ [m2] := by
      intro hc
      rcases List.mem_append.mp hc with hc2 | hc2
      · exact hm hc2
      · exact hm2 (List.mem_singleton.mp hc2).symm
    have heq : applyBatchOp s (BatchOp.add m2 t) =
        (if s.batch_size ≤ (s.messages ++ [m2]).length then
          process_batch { s with messages := s.messages ++ [m2], lastTime := some t }
        else { s with messages := s.messages ++ [m2], lastTime := some t }) := rfl
    rw [heq]
    split_ifs with hsz
    · exact hgen _ hms1 rfl
    · exact ⟨hms1, fun b hb => Or.inl hb⟩
  | check now =>
    have heq : applyBatchOp s (BatchOp.check now) = check_timeouts s now := rfl
    rw [heq]
    rcases check_timeouts_cases s now with hc | hc <;> rw [hc]
    · exact ⟨hm, fun b hb => Or.inl hb⟩
    · exact hgen s hm rfl
  | registerHandler => exact ⟨hm, fun b hb => Or.inl hb⟩
  | unregisterHandler => exact ⟨hm, fun b hb => Or.inl hb⟩
  | stop =>
    have heq : applyBatchOp s BatchOp.stop = stop_flush s := rfl
    rw [heq]
    rcases stop_flush_cases s with hc | hc <;> rw [hc]
    · exact ⟨hm, fun b hb => Or.inl hb⟩
    · exact hgen s hm rfl

theorem runBatchOps_no_new (m : Nat) :
    ∀ (ops : List BatchOp) (s : TopicBatchState),
      m ∉ s.messages → (∀ t, BatchOp.add m t ∉ ops) →
      m ∉ (runBatchOps s ops).messages ∧
      ∀ b ∈ (runBatchOps s ops).flushed, b ∈ s.flushed ∨ m ∉ b := by
  intro ops
  induction ops with
  | nil => intro s hm _; exact ⟨hm, fun b hb => Or.inl hb⟩
  | cons op ops ih =>
    intro s hm hops
    have hop1 : ∀ t, op ≠ BatchOp.add m t := by
      intro t hc
      exact hops t (by rw [hc]; exact List.mem_cons_self _ _)
    have hops2 : ∀ t, BatchOp.add m t ∉ ops := by
      intro t hc
      exact hops t (List.mem_cons_of_mem _ hc)
    have h1 := applyBatchOp_no_new m s op hm hop1
    have h2 := ih (applyBatchOp s op) h1.1 hops2
    refine ⟨h2.1, fun b hb => ?_⟩
    rcases h2.2 b hb with hb2 | hb2
    · rcases h1.2 b hb2 with hb3 | hb3
      · exact Or.inl hb3
      · exact Or.inr hb3
    · exact Or.inr hb2

/-- Claim C10: flushing a non-empty batch with no registered handler clears
and discards the buffered messages without delivering them to any handler
and without raising (only a warning is logged), and a handler registered
later never receives them: after the discarding flush, no later flushed
batch contains a discarded message unless it is explicitly re-added. -/
theorem no_handler_batch_discarded (s : TopicBatchState)
    (hh : s.hasHandler = false) (hm : s.messages ≠ []) :
    (process_batch s = { s with messages := [] }) ∧
    (∀ (m : Nat) (ops : List BatchOp), m ∈ s.messages → (∀ t, BatchOp.add m t ∉ ops) →
      ∀ b ∈ (runBatchOps (process_batch s) ops).flushed, b ∈ s.flushed ∨ m ∉ b) := by
  have hpb : process_batch s = { s with messages := [] } := by
    unfold process_batch
    rw [if_neg (by simp [List.isEmpty_iff, hm]), if_pos (by simp [hh])]
  refine ⟨hpb, ?_⟩
  intro m ops _ hops b hb
  have h := runBatchOps_no_new m ops (process_batch s) (by rw [hpb]; simp) hops
  rcases h.2 b hb with hb2 | hb2
  · rw [hpb] at hb2
    exact Or.inl hb2
  · exact Or.inr hb2

/-- Topic state for the C10 witness: one buffered message, no handler. -/
def sC10w : TopicBatchState :=
  { batch_size := 10, timeout := 5, messages := [3], lastTime := some 0, hasHandler := false }

/-- Witness for C10 at a concrete no-handler state: the flush clears the
buffer. -/
theorem no_handler_batch_discarded_witness :
    process_batch sC10w = { sC10w with messages := [] } :=
  (no_handler_batch_discarded sC10w rfl (by decide)).1

end SynApps
